import Mathlib

/-!
# Verification of the QuestStream quiz application core

Shallow embedding of the grading engine (`quiz_engine.py`), the document
parser (`question_parser.py`), the statistics merge (`quiz_engine.py` /
`storage.py`) and the wrong-question-set updates (`quiz_engine.py`,
`qt_app.py`, `gui_app.py`).

Python text is modelled as a list of Unicode code points (`Str := List Nat`).
Python's `str.upper`, `str.strip` and the `\s` / `\d` regex classes are
modelled over the code-point alphabet the application actually manipulates
(ASCII, full-width Latin forms, CJK punctuation and the CJK characters
appearing in the token tables); on those code points the model agrees with
Python exactly.
-/

namespace QuestStream

/-- Python strings as lists of Unicode code points. -/
abbrev Str := List Nat

/-- Whitespace, as recognised by Python's `str.strip()` and the regex class
`\s` on the characters this application handles: ASCII space, TAB, LF, VT,
FF, CR and the ideographic space U+3000. -/
def isSpace (c : Nat) : Bool :=
  c = 32 || c = 9 || c = 10 || c = 11 || c = 12 || c = 13 || c = 0x3000

/-- Python `str.upper()` restricted to the alphabet in play: ASCII `a`-`z`
maps to `A`-`Z`, full-width `ａ`-`ｚ` (U+FF41-U+FF5A) maps to full-width
`Ａ`-`Ｚ` (U+FF21-U+FF3A); every other relevant code point is fixed. -/
def pyUpperChar (c : Nat) : Nat :=
  if 97 ≤ c ∧ c ≤ 122 then c - 32
  else if 0xFF41 ≤ c ∧ c ≤ 0xFF5A then c - 32
  else c

/-- Python `s.upper()`. -/
def pyUpper (s : Str) : Str := s.map pyUpperChar

/-- Python `s.strip()`: remove leading and trailing whitespace. -/
def pyStrip (s : Str) : Str := (s.dropWhile isSpace).rdropWhile isSpace

/-- Python `s.startswith(p)`. -/
def strStartsWith (p s : Str) : Bool := s.take p.length = p

/-- Python `needle in hay` (substring containment). -/
def containsSub (needle hay : Str) : Bool :=
  (List.range (hay.length + 1)).any fun i => (hay.drop i).take needle.length = needle

/-! ### Insertion-ordered dictionaries (Python `dict`)

A Python `dict` keeps insertion order; writing to an existing key replaces
the value in place, a new key is appended at the end, and `pop` removes the
entry. -/

/-- Assignment `d[k] = v`. -/
def dinsert {κ α : Type} [DecidableEq κ] (k : κ) (v : α) :
    List (κ × α) → List (κ × α)
  | [] => [(k, v)]
  | (k', v') :: rest =>
    if k' = k then (k, v) :: rest else (k', v') :: dinsert k v rest

/-- Removal `d.pop(k, None)`. -/
def derase {κ α : Type} [DecidableEq κ] (k : κ) (d : List (κ × α)) :
    List (κ × α) :=
  d.filter fun p => p.1 ≠ k

/-- Lookup `d.get(k)`. -/
def dlookup {κ α : Type} [DecidableEq κ] (k : κ) : List (κ × α) → Option α
  | [] => none
  | (k', v) :: rest => if k' = k then some v else dlookup k rest

/-- Membership `k in d`. -/
def dmem {κ α : Type} [DecidableEq κ] (k : κ) (d : List (κ × α)) : Bool :=
  d.any fun p => p.1 = k

/-! ### `config.py`: question-type constants -/

def QTYPE_SINGLE : String := "single"
def QTYPE_BLANK : String := "blank"
def QTYPE_TF : String := "tf"
def QTYPE_SHORT : String := "short"

/-! ### `models.py`: the `Question` dataclass

`source` and `explanation` carry no grading behaviour and are omitted;
`wrong_count` is *not* a dataclass field (it only ever exists as a dynamic
attribute in `qt_app.py`, see `WrongEntry` below). -/

structure Question where
  id : Nat
  qType : String
  question : Str
  options : List (Nat × Str)
  answer : Str
deriving DecidableEq

/-! ### `quiz_engine.py`: answer normalization and grading -/

/-- The regex class `[A-HＡ-Ｈ]` of `_normalize_single_correct_answer`. -/
def isSingleLabel (c : Nat) : Bool :=
  (65 ≤ c && c ≤ 72) || (0xFF21 ≤ c && c ≤ 0xFF28)

/-- Embeds `_normalize_option_label` applied to one matched letter: `strip` and
`upper` (identities on a single already-matched letter after `pyUpperChar`),
then the `ＡＢＣＤＥＦＧＨ → ABCDEFGH` translation table. -/
def normalize_option_label (c : Nat) : Nat :=
  if 0xFF21 ≤ pyUpperChar c ∧ pyUpperChar c ≤ 0xFF28 then pyUpperChar c - 0xFEE0
  else pyUpperChar c

/-- Python `sorted(set(l))`: the ascending enumeration of the distinct
elements of `l`, built by duplicate-skipping ordered insertion. -/
def insertSorted (x : Nat) : List Nat → List Nat
  | [] => [x]
  | y :: ys =>
    if x < y then x :: y :: ys
    else if x = y then y :: ys
    else y :: insertSorted x ys

/-- Python `sorted(set(l))`. -/
def sortedDedup (l : List Nat) : List Nat := l.foldr insertSorted []

/-- Embeds `_normalize_single_correct_answer`: collect every `[A-HＡ-Ｈ]` letter of
`ans.upper()`, normalize each label, then `sorted(set(...))`. -/
def normalize_single_correct_answer (ans : Str) : Str :=
  let labels := (pyUpper ans).filter isSingleLabel
  let labels := labels.map normalize_option_label
  sortedDedup labels

/-- Embeds `_normalize_single_user_answer`: `raw.strip().upper()`, empty input maps
to the empty string, otherwise the same letter pipeline. -/
def normalize_single_user_answer (raw : Str) : Str :=
  let r := pyUpper (pyStrip raw)
  if r = [] then []
  else
    let labels := r.filter isSingleLabel
    let labels := labels.map normalize_option_label
    sortedDedup labels

/-- The shared normalization of both true/false normalizers:
`s.strip().replace(" ", "").replace("。", "").upper()`. -/
def tf_normalize (s : Str) : Str :=
  pyUpper (((pyStrip s).filter (· ≠ 32)).filter (· ≠ 0x3002))

/-- The `"T"` vocabulary `{"对", "正确", "T", "TRUE", "Y", "YES", "1"}`. -/
def tf_true_tokens : List Str :=
  [[23545], [27491, 30830], [84], [84, 82, 85, 69], [89], [89, 69, 83], [49]]

/-- The `"F"` vocabulary `{"错", "错误", "F", "FALSE", "N", "NO", "0"}`. -/
def tf_false_tokens : List Str :=
  [[38169], [38169, 35823], [70], [70, 65, 76, 83, 69], [78], [78, 79], [48]]

/-- Embeds `_normalize_tf_correct_answer`. -/
def normalize_tf_correct_answer (ans : Str) : Str :=
  let s := tf_normalize ans
  if tf_true_tokens.contains s then [84]
  else if tf_false_tokens.contains s then [70]
  else s

/-- Embeds `_normalize_tf_user_answer` (textually identical to the reference-side
normalizer in the source). -/
def normalize_tf_user_answer (raw : Str) : Str :=
  let s := tf_normalize raw
  if tf_true_tokens.contains s then [84]
  else if tf_false_tokens.contains s then [70]
  else s

/-- The run-collapsing core of `re.sub(r"\s+", " ", ans)`: each maximal
whitespace run becomes one ASCII space. The flag records whether the
previous character was whitespace. -/
def collapseWSAux : Bool → Str → Str
  | _, [] => []
  | true, c :: cs =>
    if isSpace c then collapseWSAux true cs else c :: collapseWSAux false cs
  | false, c :: cs =>
    if isSpace c then 32 :: collapseWSAux true cs
    else c :: collapseWSAux false cs

/-- Embeds `_normalize_text_answer`: `ans.strip()` then `re.sub(r"\s+", " ", ans)`. -/
def normalize_text_answer (ans : Str) : Str :=
  collapseWSAux false (pyStrip ans)

/-- Embeds `_check_answer`: per-type grading, returning
`(is_correct, normalized_user, normalized_reference)`. -/
def check_answer (q : Question) (user_raw : Str) : Bool × Str × Str :=
  if q.qType = QTYPE_SINGLE then
    let correct_norm := normalize_single_correct_answer q.answer
    let user_norm := normalize_single_user_answer user_raw
    (decide (user_norm = correct_norm) && decide (correct_norm ≠ []),
      user_norm, correct_norm)
  else if q.qType = QTYPE_TF then
    let correct_norm := normalize_tf_correct_answer q.answer
    let user_norm := normalize_tf_user_answer user_raw
    (decide (user_norm = correct_norm) &&
      (decide (correct_norm = [84]) || decide (correct_norm = [70])),
      user_norm, correct_norm)
  else if q.qType = QTYPE_BLANK then
    let correct_norm := normalize_text_answer q.answer
    let user_norm := normalize_text_answer user_raw
    (decide (user_norm = correct_norm) && decide (correct_norm ≠ []),
      user_norm, correct_norm)
  else if q.qType = QTYPE_SHORT then
    (false, normalize_text_answer user_raw, normalize_text_answer q.answer)
  else
    (false, normalize_text_answer user_raw, normalize_text_answer q.answer)

/-! ### Specification-side canonical form for single-choice answers (C1)

The spec describes the canonical form as: extract every Latin letter A–H
(half- or full-width, either case), normalize to half-width uppercase,
deduplicate, sort ascending. -/

/-- The half-width uppercase label alphabet `A`–`H`, in ascending order. -/
def alphabetAH : List Nat := [65, 66, 67, 68, 69, 70, 71, 72]

/-- Predicate: `c` is one of the four width/case forms of the half-width uppercase
letter `L`: `L` itself, its ASCII lowercase, its full-width uppercase
(`L + 0xFEE0`), or its full-width lowercase. -/
def denotesLabel (c L : Nat) : Bool :=
  c == L || c == L + 32 || c == L + 65248 || c == L + 65280

/-- Spec-side canonical label string: the ascending enumeration of the
distinct letters `A`–`H` occurring in `s` in any width/case form. -/
def specCanonical (s : Str) : Str :=
  alphabetAH.filter fun L => s.any fun c => denotesLabel c L

lemma bool_eq_of_iff {a b : Bool} (h : a = true ↔ b = true) : a = b := by
  cases a <;> cases b <;> simp_all

lemma mem_insertSorted {z x : Nat} :
    ∀ {l : List Nat}, z ∈ insertSorted x l ↔ z = x ∨ z ∈ l := by
  intro l
  induction l with
  | nil => simp [insertSorted]
  | cons y ys ih =>
    rw [insertSorted]
    split_ifs with h1 h2
    · simp [List.mem_cons]
    · subst h2; simp [List.mem_cons]
    · simp only [List.mem_cons, ih]; tauto

lemma sorted_insertSorted {x : Nat} :
    ∀ {l : List Nat}, List.Sorted (· < ·) l →
      List.Sorted (· < ·) (insertSorted x l) := by
  intro l
  induction l with
  | nil => intro _; simp [insertSorted]
  | cons y ys ih =>
    intro h
    obtain ⟨hy, hys⟩ := List.sorted_cons.mp h
    rw [insertSorted]
    split_ifs with h1 h2
    · rw [List.sorted_cons]
      refine ⟨?_, h⟩
      intro b hb
      rcases List.mem_cons.mp hb with rfl | hb
      · exact h1
      · exact lt_trans h1 (hy b hb)
    · exact h
    · rw [List.sorted_cons]
      refine ⟨?_, ih hys⟩
      intro b hb
      rcases mem_insertSorted.mp hb with rfl | hb
      · omega
      · exact hy b hb

lemma sorted_sortedDedup (l : List Nat) :
    List.Sorted (· < ·) (sortedDedup l) := by
  induction l with
  | nil => simp [sortedDedup]
  | cons c cs ih => exact sorted_insertSorted ih

lemma mem_sortedDedup {z : Nat} :
    ∀ {l : List Nat}, z ∈ sortedDedup l ↔ z ∈ l := by
  intro l
  induction l with
  | nil => simp [sortedDedup]
  | cons c cs ih =>
    show z ∈ insertSorted c (sortedDedup cs) ↔ _
    rw [mem_insertSorted, ih]
    simp [List.mem_cons]

lemma sorted_lt_ext :
    ∀ {a b : List Nat}, List.Sorted (· < ·) a → List.Sorted (· < ·) b →
      (∀ x, x ∈ a ↔ x ∈ b) → a = b := by
  intro a
  induction a with
  | nil =>
    intro b _ _ h
    cases b with
    | nil => rfl
    | cons y ys => exact absurd ((h y).mpr (List.mem_cons_self y ys)) (by simp)
  | cons x xs ih =>
    intro b ha hb h
    obtain ⟨hxa, hxs⟩ := List.sorted_cons.mp ha
    cases b with
    | nil => exact absurd ((h x).mp (List.mem_cons_self x xs)) (by simp)
    | cons y ys =>
      obtain ⟨hyb, hys⟩ := List.sorted_cons.mp hb
      have hxy : x = y := by
        rcases List.mem_cons.mp ((h x).mp (List.mem_cons_self x xs)) with
          h1 | h1
        · exact h1
        · rcases List.mem_cons.mp ((h y).mpr (List.mem_cons_self y ys)) with
            h2 | h2
          · exact h2.symm
          · have hyx := hyb x h1
            have hxy := hxa y h2
            omega
      subst hxy
      have htail : ∀ z, z ∈ xs ↔ z ∈ ys := by
        intro z
        constructor
        · intro hz
          have hlt := hxa z hz
          rcases List.mem_cons.mp ((h z).mp (List.mem_cons_of_mem x hz)) with
            h1 | h1
          · omega
          · exact h1
        · intro hz
          have hlt := hyb z hz
          rcases List.mem_cons.mp ((h z).mpr (List.mem_cons_of_mem x hz)) with
            h1 | h1
          · omega
          · exact h1
      rw [ih hxs hys htail]

lemma mem_alphabet_iff {x : Nat} : x ∈ alphabetAH ↔ 65 ≤ x ∧ x ≤ 72 := by
  simp only [alphabetAH, List.mem_cons, List.not_mem_nil, or_false]
  omega

lemma label_char_bridge (c L : Nat) (hL : 65 ≤ L ∧ L ≤ 72) :
    (isSingleLabel (pyUpperChar c) = true ∧
      normalize_option_label (pyUpperChar c) = L) ↔ denotesLabel c L = true := by
  unfold isSingleLabel normalize_option_label pyUpperChar denotesLabel
  simp only [Bool.or_eq_true, Bool.and_eq_true, decide_eq_true_eq, beq_iff_eq]
  split_ifs <;> omega

lemma mem_label_pipeline {s : Str} {L : Nat} (hL : L ∈ alphabetAH) :
    L ∈ ((pyUpper s).filter isSingleLabel).map normalize_option_label ↔
      ∃ c ∈ s, denotesLabel c L = true := by
  have hL' := mem_alphabet_iff.mp hL
  unfold pyUpper
  simp only [List.mem_map, List.mem_filter]
  constructor
  · rintro ⟨u, ⟨⟨c, hc, rfl⟩, hp⟩, hg⟩
    exact ⟨c, hc, (label_char_bridge c L hL').mp ⟨hp, hg⟩⟩
  · rintro ⟨c, hc, hd⟩
    obtain ⟨hp, hg⟩ := (label_char_bridge c L hL').mpr hd
    exact ⟨pyUpperChar c, ⟨⟨c, hc, rfl⟩, hp⟩, hg⟩

lemma pipeline_mem_alphabet {s : Str} {x : Nat}
    (hx : x ∈ ((pyUpper s).filter isSingleLabel).map normalize_option_label) :
    65 ≤ x ∧ x ≤ 72 := by
  simp only [List.mem_map, List.mem_filter] at hx
  obtain ⟨u, ⟨_, hp⟩, rfl⟩ := hx
  unfold isSingleLabel at hp
  unfold normalize_option_label pyUpperChar
  simp only [Bool.or_eq_true, Bool.and_eq_true, decide_eq_true_eq] at hp
  split_ifs <;> omega

lemma sorted_specCanonical (s : Str) :
    List.Sorted (· < ·) (specCanonical s) := by
  have h : List.Sorted (· < ·) alphabetAH := by decide
  exact List.Pairwise.filter _ h

/-- The grading pipeline of `_normalize_single_correct_answer` computes the
spec-side canonical form. -/
lemma pipeline_eq_spec (s : Str) :
    sortedDedup (((pyUpper s).filter isSingleLabel).map normalize_option_label)
      = specCanonical s := by
  apply sorted_lt_ext (sorted_sortedDedup _) (sorted_specCanonical _)
  intro x
  rw [mem_sortedDedup]
  unfold specCanonical
  rw [List.mem_filter]
  constructor
  · intro hx
    have hmem : x ∈ alphabetAH := mem_alphabet_iff.mpr (pipeline_mem_alphabet hx)
    refine ⟨hmem, ?_⟩
    rw [List.any_eq_true]
    exact (mem_label_pipeline hmem).mp hx
  · rintro ⟨hmem, hany⟩
    rw [List.any_eq_true] at hany
    exact (mem_label_pipeline hmem).mpr hany

lemma normalize_single_correct_eq_spec (ans : Str) :
    normalize_single_correct_answer ans = specCanonical ans :=
  pipeline_eq_spec ans

lemma mem_dropWhile_of_not {p : Nat → Bool} :
    ∀ {l : List Nat} {c : Nat}, c ∈ l → p c = false → c ∈ l.dropWhile p := by
  intro l
  induction l with
  | nil => simp
  | cons a as ih =>
    intro c hc hp
    rw [List.dropWhile_cons]
    split_ifs with ha
    · rcases List.mem_cons.mp hc with rfl | h
      · rw [hp] at ha; cases ha
      · exact ih h hp
    · exact hc

lemma mem_pyStrip_of_not_space {l : Str} {c : Nat}
    (hc : c ∈ l) (hp : isSpace c = false) : c ∈ pyStrip l := by
  unfold pyStrip List.rdropWhile
  rw [List.mem_reverse]
  exact mem_dropWhile_of_not (List.mem_reverse.mpr (mem_dropWhile_of_not hc hp)) hp

lemma mem_of_mem_pyStrip {l : Str} {c : Nat} (hc : c ∈ pyStrip l) : c ∈ l :=
  (List.dropWhile_suffix isSpace).sublist.subset
    ((List.rdropWhile_prefix isSpace _).sublist.subset hc)

lemma strip_all_space {l : Str} (h : pyStrip l = []) :
    ∀ c ∈ l, isSpace c = true := by
  intro c hc
  by_contra hns
  rw [Bool.not_eq_true] at hns
  have := mem_pyStrip_of_not_space hc hns
  rw [h] at this
  cases this

lemma denotes_space {c L : Nat} (hs : isSpace c = true)
    (hL : 65 ≤ L ∧ L ≤ 72) : denotesLabel c L = false := by
  unfold isSpace at hs
  unfold denotesLabel
  simp only [Bool.or_eq_true, decide_eq_true_eq] at hs
  simp only [Bool.or_eq_false_iff, beq_eq_false_iff_ne, ne_eq]
  omega

lemma any_denotes_strip_iff (s : Str) (L : Nat) (hL : 65 ≤ L ∧ L ≤ 72) :
    ((pyStrip s).any fun c => denotesLabel c L) = true ↔
      (s.any fun c => denotesLabel c L) = true := by
  simp only [List.any_eq_true]
  constructor
  · rintro ⟨c, hc, hd⟩
    exact ⟨c, mem_of_mem_pyStrip hc, hd⟩
  · rintro ⟨c, hc, hd⟩
    have hns : isSpace c = false := by
      by_contra h
      rw [Bool.not_eq_false] at h
      rw [denotes_space h hL] at hd
      cases hd
    exact ⟨c, mem_pyStrip_of_not_space hc hns, hd⟩

lemma specCanonical_pyStrip (s : Str) :
    specCanonical (pyStrip s) = specCanonical s := by
  unfold specCanonical
  apply List.filter_congr
  intro L hL
  exact bool_eq_of_iff (any_denotes_strip_iff s L (mem_alphabet_iff.mp hL))

lemma normalize_single_user_eq_spec (raw : Str) :
    normalize_single_user_answer raw = specCanonical raw := by
  by_cases h : pyUpper (pyStrip raw) = []
  · simp only [normalize_single_user_answer, if_pos h]
    have hstrip : pyStrip raw = [] := by
      unfold pyUpper at h
      exact List.map_eq_nil_iff.mp h
    have hall := strip_all_space hstrip
    unfold specCanonical
    symm
    rw [List.filter_eq_nil_iff]
    intro L hL
    simp only [List.any_eq_true]
    rintro ⟨c, hc, hd⟩
    rw [denotes_space (hall c hc) (mem_alphabet_iff.mp hL)] at hd
    cases hd
  · simp only [normalize_single_user_answer, if_neg h]
    calc
      sortedDedup (((pyUpper (pyStrip raw)).filter isSingleLabel).map
          normalize_option_label) = specCanonical (pyStrip raw) :=
        pipeline_eq_spec (pyStrip raw)
      _ = specCanonical raw := specCanonical_pyStrip raw

/-- C1: for every single-choice question and every raw user answer,
`check_answer` computes for each side the canonical string (every Latin
letter A–H in any width/case, normalized to half-width uppercase,
deduplicated, sorted ascending) and reports correct iff the two canonical
strings are equal and the reference canonical string is non-empty. -/
theorem c1_single_choice_grading (q : Question) (raw : Str)
    (h : q.qType = QTYPE_SINGLE) :
    ((check_answer q raw).1 = true ↔
      (specCanonical raw = specCanonical q.answer ∧
        specCanonical q.answer ≠ []))
    ∧ (check_answer q raw).2.1 = specCanonical raw
    ∧ (check_answer q raw).2.2 = specCanonical q.answer := by
  unfold check_answer
  rw [h, if_pos rfl]
  simp only [normalize_single_user_eq_spec, normalize_single_correct_eq_spec,
    Bool.and_eq_true, decide_eq_true_eq, ne_eq]
  exact ⟨trivial, trivial, trivial⟩

/-- Concrete instance of C1: options-style question with reference `"AB"`,
user input `"b a"` is graded correct. -/
def c1q : Question :=
  { id := 7, qType := QTYPE_SINGLE, question := [],
    options := [(65, [120]), (66, [121])], answer := [65, 66] }

theorem c1_witness :
    c1q.qType = QTYPE_SINGLE ∧ (check_answer c1q [98, 32, 97]).1 = true :=
  ⟨rfl, ((c1_single_choice_grading c1q [98, 32, 97] rfl).1).mpr (by decide)⟩

/-! ### C10: short-answer grading and the canonical text form -/

/-- A canonicalized text: trimmed (no leading or trailing whitespace) and
collapsed (no two adjacent whitespace characters). -/
def canonicalText (l : Str) : Prop :=
  (∀ c, l.head? = some c → isSpace c = false) ∧
  (∀ c, l.getLast? = some c → isSpace c = false) ∧
  List.Chain' (fun a b => isSpace a = false ∨ isSpace b = false) l

lemma collapse_true_head :
    ∀ {l : Str} {c : Nat}, (collapseWSAux true l).head? = some c →
      isSpace c = false := by
  intro l
  induction l with
  | nil => simp [collapseWSAux]
  | cons a as ih =>
    intro c h
    simp only [collapseWSAux] at h
    split_ifs at h with ha
    · exact ih h
    · simp only [List.head?_cons, Option.some.injEq] at h
      subst h
      exact eq_false_of_ne_true ha

lemma collapse_chain (l : Str) :
    ∀ b : Bool, List.Chain'
      (fun a b => isSpace a = false ∨ isSpace b = false) (collapseWSAux b l) := by
  induction l with
  | nil => intro b; simp [collapseWSAux]
  | cons a as ih =>
    intro b
    cases b with
    | true =>
      simp only [collapseWSAux]
      split_ifs with ha
      · exact ih true
      · rw [List.chain'_cons']
        refine ⟨?_, ih false⟩
        intro y hy
        exact Or.inl (eq_false_of_ne_true ha)
    | false =>
      simp only [collapseWSAux]
      split_ifs with ha
      · rw [List.chain'_cons']
        refine ⟨?_, ih true⟩
        intro y hy
        exact Or.inr (collapse_true_head (by simpa using hy))
      · rw [List.chain'_cons']
        refine ⟨?_, ih false⟩
        intro y hy
        exact Or.inl (eq_false_of_ne_true ha)

lemma getLast?_cons_of_ne_nil {a : Nat} {X : Str} (h : X ≠ []) :
    (a :: X).getLast? = X.getLast? := by
  cases X with
  | nil => exact absurd rfl h
  | cons x xs => exact List.getLast?_cons_cons

lemma ne_nil_of_getLast?_eq_some {X : Str} {c : Nat}
    (h : X.getLast? = some c) : X ≠ [] := by
  rintro rfl
  cases h

lemma collapse_getLast :
    ∀ {l : Str} {c : Nat} (b : Bool), l.getLast? = some c →
      isSpace c = false → (collapseWSAux b l).getLast? = some c := by
  intro l
  induction l with
  | nil => intro c b h; cases h
  | cons a as ih =>
    intro c b h hc
    cases as with
    | nil =>
      simp only [List.getLast?_singleton, Option.some.injEq] at h
      subst h
      cases b <;> simp [collapseWSAux, hc]
    | cons a2 as2 =>
      rw [List.getLast?_cons_cons] at h
      have htail : ∀ b', (collapseWSAux b' (a2 :: as2)).getLast? = some c :=
        fun b' => ih b' h hc
      have hne : ∀ b', collapseWSAux b' (a2 :: as2) ≠ [] :=
        fun b' => ne_nil_of_getLast?_eq_some (htail b')
      cases b with
      | true =>
        show (if isSpace a then collapseWSAux true (a2 :: as2)
          else a :: collapseWSAux false (a2 :: as2)).getLast? = some c
        split_ifs with ha
        · exact htail true
        · rw [getLast?_cons_of_ne_nil (hne false)]
          exact htail false
      | false =>
        show (if isSpace a then 32 :: collapseWSAux true (a2 :: as2)
          else a :: collapseWSAux false (a2 :: as2)).getLast? = some c
        split_ifs with ha
        · rw [getLast?_cons_of_ne_nil (hne true)]
          exact htail true
        · rw [getLast?_cons_of_ne_nil (hne false)]
          exact htail false

lemma collapse_head (b : Bool) {l : Str} {c : Nat}
    (h : l.head? = some c) (hc : isSpace c = false) :
    (collapseWSAux b l).head? = some c := by
  cases l with
  | nil => cases h
  | cons a as =>
    simp only [List.head?_cons, Option.some.injEq] at h
    subst h
    cases b <;> simp [collapseWSAux, hc]

lemma head?_dropWhile_not_space :
    ∀ {l : Str} {c : Nat}, (l.dropWhile isSpace).head? = some c →
      isSpace c = false := by
  intro l
  induction l with
  | nil => simp
  | cons a as ih =>
    intro c h
    rw [List.dropWhile_cons] at h
    split_ifs at h with ha
    · exact ih h
    · simp only [List.head?_cons, Option.some.injEq] at h
      subst h
      exact eq_false_of_ne_true ha

lemma pyStrip_head_not_space {l : Str} {c : Nat}
    (h : (pyStrip l).head? = some c) : isSpace c = false := by
  apply head?_dropWhile_not_space (l := l)
  obtain ⟨t', ht'⟩ := List.rdropWhile_prefix isSpace (l.dropWhile isSpace)
  have hps : pyStrip l ++ t' = l.dropWhile isSpace := ht'
  rw [← hps]
  cases hpl : pyStrip l with
  | nil => rw [hpl] at h; cases h
  | cons d ds =>
    rw [hpl] at h
    rw [List.cons_append, List.head?_cons]
    rw [List.head?_cons] at h
    exact h

lemma pyStrip_getLast_not_space {l : Str} {c : Nat}
    (h : (pyStrip l).getLast? = some c) : isSpace c = false := by
  have hne : pyStrip l ≠ [] := ne_nil_of_getLast?_eq_some h
  have hlast := List.rdropWhile_last_not isSpace (l.dropWhile isSpace) hne
  rw [List.getLast?_eq_getLast _ hne] at h
  simp only [Option.some.injEq] at h
  subst h
  exact eq_false_of_ne_true hlast

/-- The function `_normalize_text_answer` always produces a trimmed, collapsed string. -/
lemma normalize_text_canonical (s : Str) :
    canonicalText (normalize_text_answer s) := by
  refine ⟨?_, ?_, collapse_chain (pyStrip s) false⟩
  · intro c h
    cases hps : (pyStrip s).head? with
    | none =>
      cases hnil : pyStrip s with
      | nil =>
        unfold normalize_text_answer at h
        rw [hnil] at h
        cases h
      | cons a t => rw [hnil] at hps; cases hps
    | some d =>
      have hd := pyStrip_head_not_space hps
      have := collapse_head false hps hd
      unfold normalize_text_answer at h
      rw [this] at h
      simp only [Option.some.injEq] at h
      subst h
      exact hd
  · intro c h
    cases hps : (pyStrip s).getLast? with
    | none =>
      cases hnil : pyStrip s with
      | nil =>
        unfold normalize_text_answer at h
        rw [hnil] at h
        cases h
      | cons a t =>
        rw [hnil, List.getLast?_eq_getLast _ (by simp)] at hps
        cases hps
    | some d =>
      have hd := pyStrip_getLast_not_space hps
      have := collapse_getLast false hps hd
      unfold normalize_text_answer at h
      rw [this] at h
      simp only [Option.some.injEq] at h
      subst h
      exact hd

/-- C10: short-answer questions are never auto-graded correct; the engine
still returns the canonicalized (whitespace-collapsed, trimmed) forms of
both the user answer and the reference answer. -/
theorem c10_short_answer_grading (q : Question) (raw : Str)
    (h : q.qType = QTYPE_SHORT) :
    check_answer q raw =
      (false, normalize_text_answer raw, normalize_text_answer q.answer)
    ∧ canonicalText (normalize_text_answer raw)
    ∧ canonicalText (normalize_text_answer q.answer) := by
  refine ⟨?_, normalize_text_canonical raw, normalize_text_canonical q.answer⟩
  unfold check_answer
  rw [h, if_neg (by decide), if_neg (by decide), if_neg (by decide), if_pos rfl]

/-- Concrete short-answer question used by the C10 witness. -/
def c10q : Question :=
  { id := 3, qType := QTYPE_SHORT, question := [], options := [],
    answer := [97, 32, 32, 98] }

theorem c10_witness :
    check_answer c10q [32, 120, 32, 32, 121, 32] =
      (false, [120, 32, 121], [97, 32, 98]) :=
  ((c10_short_answer_grading c10q [32, 120, 32, 32, 121, 32] rfl).1).trans
    (by decide)

/-! ### C3: true/false grading as a vocabulary map -/

/-- Spec-side token map: normalize, then look the result up in the fixed
true/false vocabulary; `none` when the text is in neither set. -/
def tf_token (s : Str) : Option Bool :=
  if tf_true_tokens.contains (tf_normalize s) then some true
  else if tf_false_tokens.contains (tf_normalize s) then some false
  else none

lemma tf_norm_eq_user (s : Str) :
    normalize_tf_correct_answer s = normalize_tf_user_answer s := rfl

lemma tf_norm_cases (s : Str) :
    (tf_token s = some true ∧ normalize_tf_user_answer s = [84]) ∨
    (tf_token s = some false ∧ normalize_tf_user_answer s = [70]) ∨
    (tf_token s = none ∧ normalize_tf_user_answer s = tf_normalize s ∧
      tf_normalize s ≠ [84] ∧ tf_normalize s ≠ [70]) := by
  unfold tf_token normalize_tf_user_answer
  by_cases h1 : tf_normalize s ∈ tf_true_tokens
  · left
    simp [h1]
  · by_cases h2 : tf_normalize s ∈ tf_false_tokens
    · right; left
      simp [h1, h2]
    · right; right
      refine ⟨by simp [h1, h2], by simp [h1, h2], ?_, ?_⟩
      · intro he
        apply h1
        rw [he]
        decide
      · intro he
        apply h2
        rw [he]
        decide

/-- C3 (amended): true/false grading reports correct iff both sides map to
the same valid token of the fixed vocabulary; a side mapping to neither
token never compares equal, even to a literally identical string. -/
theorem c3_tf_grading (q : Question) (raw : Str) (h : q.qType = QTYPE_TF) :
    (check_answer q raw).1 = true ↔
      ∃ b, tf_token raw = some b ∧ tf_token q.answer = some b := by
  unfold check_answer
  rw [h, if_neg (by decide), if_pos rfl]
  simp only [Bool.and_eq_true, Bool.or_eq_true, decide_eq_true_eq]
  rw [tf_norm_eq_user q.answer]
  rcases tf_norm_cases raw with ⟨t1, e1⟩ | ⟨t1, e1⟩ | ⟨t1, e1, n1, n2⟩ <;>
    rcases tf_norm_cases q.answer with ⟨t2, e2⟩ | ⟨t2, e2⟩ | ⟨t2, e2, m1, m2⟩ <;>
    rw [e1, e2, t1, t2] <;> simp_all

/-- Concrete true/false question (reference `对`) for the C3 witness. -/
def c3q : Question :=
  { id := 9, qType := QTYPE_TF, question := [], options := [],
    answer := [23545] }

theorem c3_witness : (check_answer c3q [49]).1 = true :=
  (c3_tf_grading c3q [49] rfl).mpr ⟨true, by decide, by decide⟩

/-- Standard full-width-to-half-width normalization (U+FF01–U+FF5E). The
original claim asserts the vocabulary matching is full-width-insensitive;
this map expresses that reading. -/
def to_halfwidth (c : Nat) : Nat :=
  if 0xFF01 ≤ c ∧ c ≤ 0xFF5E then c - 0xFEE0 else c

/-- The token map the original claim describes: full-width-insensitive. -/
def claim_tf_token (s : Str) : Option Bool := tf_token (s.map to_halfwidth)

/-- True/false question whose reference answer is the ASCII letter `T`. -/
def c3fw : Question :=
  { id := 10, qType := QTYPE_TF, question := [], options := [],
    answer := [84] }

/-- C3 counterexample: under the claim's full-width-insensitive vocabulary
both the user's full-width `Ｔ` (U+FF34) and the reference `T` map to the
same valid token, yet `check_answer` grades the submission incorrect — the
code never normalizes full-width characters for true/false answers. -/
theorem c3_counterexample :
    claim_tf_token [65332] = some true ∧
      claim_tf_token c3fw.answer = some true ∧
      (check_answer c3fw [65332]).1 = false := by decide

/-! ### `question_parser.py`: the line-oriented document parser -/

/-- The regex class `\d` together with `int(...)`: ASCII and full-width
decimal digits. -/
def isDigit (c : Nat) : Bool :=
  (48 ≤ c && c ≤ 57) || (0xFF10 ≤ c && c ≤ 0xFF19)

def digitVal (c : Nat) : Nat := if 0xFF10 ≤ c then c - 0xFF10 else c - 48

/-- Python `int(...)` on a digit group. -/
def natOfDigits (ds : Str) : Nat := ds.foldl (fun a c => a * 10 + digitVal c) 0

/-- The `QUESTION_START_RE` / `SECTION_RE` separator class `[、\.．]`. -/
def qsSep (c : Nat) : Bool := c = 0x3001 || c = 46 || c = 0xFF0E

/-- The `OPTION_RE` separator class `[、,，\.．]`. -/
def optSep (c : Nat) : Bool :=
  c = 0x3001 || c = 44 || c = 0xFF0C || c = 46 || c = 0xFF0E

/-- The `OPTION_RE` label class `[A-DＡ-Ｄ]`. -/
def optLabelChar (c : Nat) : Bool :=
  (65 ≤ c && c ≤ 68) || (0xFF21 ≤ c && c ≤ 0xFF24)

/-- The `SECTION_RE` numeral class `[一二三四五六七八九十]`. -/
def cjkNumeral (c : Nat) : Bool :=
  c = 19968 || c = 20108 || c = 19977 || c = 22235 || c = 20116 ||
  c = 20845 || c = 19971 || c = 20843 || c = 20061 || c = 21313

/-- The `\s*(.*)` tail of the three line regexes: skip whitespace, then
capture up to the next newline (`.` does not match `\n`). -/
def restCapture (rest : Str) : Str :=
  (rest.dropWhile isSpace).takeWhile (· ≠ 10)

/-- Embeds `QUESTION_START_RE.match(text)`: `^(\d+)[、\.．]\s*(.*)`. Taking the
maximal digit run is equivalent to the regex with backtracking because a
digit is never a separator. -/
def match_question_start (s : Str) : Option (Nat × Str) :=
  let ds := s.takeWhile isDigit
  if ds = [] then none
  else
    match s.drop ds.length with
    | [] => none
    | c :: rest =>
      if qsSep c then some (natOfDigits ds, restCapture rest) else none

/-- Embeds `OPTION_RE.match(text)`: `^([A-DＡ-Ｄ])[、,，\.．]\s*(.*)`. -/
def match_option (s : Str) : Option (Nat × Str) :=
  match s with
  | a :: c :: rest =>
    if optLabelChar a && optSep c then some (a, restCapture rest) else none
  | _ => none

/-- Embeds `SECTION_RE.match(text)`: `^[一二三四五六七八九十]+[、\.．]\s*(.*)`. -/
def match_section (s : Str) : Option Str :=
  let ns := s.takeWhile cjkNumeral
  if ns = [] then none
  else
    match s.drop ns.length with
    | [] => none
    | c :: rest => if qsSep c then some (restCapture rest) else none

def kw_single1 : Str := [21333, 36873]
def kw_single2 : Str := [36873, 25321]
def kw_blank : Str := [22635, 31354]
def kw_tf : Str := [21028, 26029]
def kw_short1 : Str := [31616, 31572]
def kw_short2 : Str := [38382, 31572]

/-- Embeds `_detect_qtype_from_section`: keyword containment, in source order. -/
def detect_qtype_from_section (t : Str) : Option String :=
  if containsSub kw_single1 t || containsSub kw_single2 t then some QTYPE_SINGLE
  else if containsSub kw_blank t then some QTYPE_BLANK
  else if containsSub kw_tf t then some QTYPE_TF
  else if containsSub kw_short1 t || containsSub kw_short2 t then some QTYPE_SHORT
  else none

/-- The literal `"正确答案"`. -/
def marker_prefix : Str := [27491, 30830, 31572, 26696]

/-- Python `text.split(sep, 1)` when `sep` occurs, as (before, after). -/
def splitFirst (sep : Nat) (s : Str) : Option (Str × Str) :=
  let pre := s.takeWhile (· ≠ sep)
  if pre.length = s.length then none else some (pre, s.drop (pre.length + 1))

/-- Extraction of the first answer line from a `正确答案` line: split at the
first full-width colon, falling back to the ASCII colon, and strip. -/
def answer_after_marker (s : Str) : Str :=
  match splitFirst 0xFF1A s with
  | some p => pyStrip p.2
  | none =>
    match splitFirst 58 s with
    | some p => pyStrip p.2
    | none => []

/-- Embeds `CN_OPTION_MAP.get(label, label)`. -/
def cn_option_map (c : Nat) : Nat :=
  if 0xFF21 ≤ c ∧ c ≤ 0xFF24 then c - 0xFEE0 else c

/-- Parser states `"question"` / `"options"` / `"answer"`. -/
inductive PState
  | question
  | options
  | answer
deriving DecidableEq

/-- The raw per-question record accumulated by `_parse_document`. -/
structure Raw where
  number : Nat
  q_type : Option String
  text_lines : List Str
  options : List (Nat × Str)
  answer_lines : List Str
deriving DecidableEq

/-- The loop state of `_parse_document`. -/
structure ParserSt where
  acc : List Raw
  current : Option Raw
  state : Option PState
  sectionType : Option String
deriving DecidableEq

/-- The final `else` of the loop body: the line is answer text while in the
answer state, prompt text otherwise. -/
def other_line (st : ParserSt) (r : Raw) (text : Str) : ParserSt :=
  if st.state = some PState.answer then
    { st with current := some { r with answer_lines := r.answer_lines ++ [text] } }
  else
    { st with current := some { r with text_lines := r.text_lines ++ [text] } }

/-- The body of `_parse_document`'s loop after `text = para.text.strip()`. -/
def process_text (st : ParserSt) (text : Str) : ParserSt :=
  if text = [] then st
  else
    match match_section text with
    | some title =>
      match detect_qtype_from_section title with
      | some t => { st with sectionType := some t }
      | none => st
    | none =>
      match match_question_start text with
      | some nb =>
        { acc := st.acc ++ st.current.toList,
          current := some
            { number := nb.1, q_type := st.sectionType,
              text_lines := if pyStrip nb.2 = [] then [] else [pyStrip nb.2],
              options := [], answer_lines := [] },
          state := some PState.question,
          sectionType := st.sectionType }
      | none =>
        match st.current with
        | none => st
        | some r =>
          if strStartsWith marker_prefix text then
            { st with
              current := some
                { r with answer_lines := r.answer_lines ++
                    (if answer_after_marker text = [] then []
                     else [answer_after_marker text]) },
              state := some PState.answer }
          else
            match match_option text with
            | some lc =>
              if st.state = some PState.question ∨
                  st.state = some PState.options then
                { st with
                  current := some
                    { r with options :=
                        dinsert (cn_option_map lc.1) (pyStrip lc.2) r.options },
                  state := some PState.options }
              else other_line st r text
            | none => other_line st r text

/-- One iteration of `_parse_document`'s paragraph loop. -/
def process_line (st : ParserSt) (line : Str) : ParserSt :=
  process_text st (pyStrip line)

/-- Embeds `_parse_document`: fold the loop over the paragraphs, then flush the
last in-progress record. -/
def parse_document (lines : List Str) : List Raw :=
  let st := lines.foldl process_line
    { acc := [], current := none, state := none, sectionType := none }
  st.acc ++ st.current.toList

/-- The `tf_set` of `_guess_qtype_for_raw`:
`{"对", "錯", "错", "正确", "错误", "√", "×", "T", "F", "TRUE", "FALSE"}`. -/
def tf_set : List Str :=
  [[23545], [37679], [38169], [27491, 30830], [38169, 35823], [8730], [215],
   [84], [70], [84, 82, 85, 69], [70, 65, 76, 83, 69]]

/-- Embeds `ans_join = "".join(raw.get("answer_lines") or []).strip()`. -/
def ans_join (raw : Raw) : Str := pyStrip raw.answer_lines.flatten

/-- Embeds `ans_norm = ans_join.replace(" ", "").upper()`. -/
def ans_norm (raw : Raw) : Str := pyUpper ((ans_join raw).filter (· ≠ 32))

/-- Embeds `_guess_qtype_for_raw`. -/
def guess_qtype_for_raw (raw : Raw) : String :=
  match raw.q_type with
  | some t => t
  | none =>
    if raw.options ≠ [] then QTYPE_SINGLE
    else if tf_set.contains (ans_norm raw) then QTYPE_TF
    else if (ans_norm raw).length ≤ 20 && !((ans_join raw).contains 10) then
      QTYPE_BLANK
    else QTYPE_SHORT

/-- One record of `_build_questions`. -/
def build_question (raw : Raw) : Question :=
  { id := raw.number,
    qType := guess_qtype_for_raw raw,
    question := pyStrip (List.intercalate [10] raw.text_lines),
    options := raw.options,
    answer :=
      if guess_qtype_for_raw raw = QTYPE_SINGLE ∨
          guess_qtype_for_raw raw = QTYPE_TF then
        pyStrip raw.answer_lines.flatten
      else pyStrip (List.intercalate [10] raw.answer_lines) }

instance : DecidableRel (fun a b : Question => a.id ≤ b.id) :=
  fun a b => Nat.decLe a.id b.id

instance : IsTotal Question (fun a b : Question => a.id ≤ b.id) :=
  ⟨fun a b => Nat.le_total a.id b.id⟩

instance : IsTrans Question (fun a b : Question => a.id ≤ b.id) :=
  ⟨fun _ _ _ h1 h2 => Nat.le_trans h1 h2⟩

/-- Embeds `_build_questions`: map, then the stable sort by ascending id. -/
def build_questions (raws : List Raw) : List Question :=
  List.insertionSort (fun a b => a.id ≤ b.id) (raws.map build_question)

/-! ### C4: output count and id order of the parser -/

/-- The parsed numbers of the question-start lines, in document order. -/
def question_start_lines (lines : List Str) : List Nat :=
  lines.filterMap fun l => (match_question_start (pyStrip l)).map (·.1)

/-- Well-formedness from the claim: every question-start line is followed by
a `正确答案` marker line before the next question-start (and before the end
of the document). -/
def wf_aux : Bool → List Str → Bool
  | pending, [] => !pending
  | pending, l :: ls =>
    if (match_question_start (pyStrip l)).isSome then
      !pending && wf_aux true ls
    else if strStartsWith marker_prefix (pyStrip l) then wf_aux false ls
    else wf_aux pending ls

def well_formed (lines : List Str) : Bool := wf_aux false lines

/-- The numbers of the records the parser holds (flushed and in-progress). -/
def rawNumbers (st : ParserSt) : List Nat :=
  (st.acc ++ st.current.toList).map (·.number)

lemma qs_none_of_head {a : Nat} {rest : Str} (h : isDigit a = false) :
    match_question_start (a :: rest) = none := by
  unfold match_question_start
  simp [List.takeWhile_cons, h]

lemma section_none_of_head {a : Nat} {rest : Str} (h : cjkNumeral a = false) :
    match_section (a :: rest) = none := by
  unfold match_section
  simp [List.takeWhile_cons, h]

lemma qs_none_of_section {t : Str} {title : Str}
    (h : match_section t = some title) : match_question_start t = none := by
  cases t with
  | nil => simp [match_section] at h
  | cons a rest =>
    by_cases ha : cjkNumeral a = true
    · apply qs_none_of_head
      unfold cjkNumeral at ha
      unfold isDigit
      simp only [Bool.or_eq_true, decide_eq_true_eq] at ha
      simp only [Bool.or_eq_false_iff, Bool.and_eq_false_iff,
        decide_eq_false_iff_not, not_le]
      omega
    · rw [section_none_of_head (eq_false_of_ne_true ha)] at h
      cases h

lemma rawNumbers_other_line (st : ParserSt) (r : Raw) (text : Str)
    (hc : st.current = some r) :
    rawNumbers (other_line st r text) = rawNumbers st := by
  unfold other_line rawNumbers
  split_ifs <;> simp [hc]

lemma rawNumbers_process (st : ParserSt) (l : Str) :
    rawNumbers (process_line st l) =
      rawNumbers st ++ ((match_question_start (pyStrip l)).map (·.1)).toList := by
  unfold process_line
  generalize pyStrip l = t
  unfold process_text
  split
  · rename_i h0
    rw [h0]
    simp [match_question_start]
  · rename_i h0
    split
    · rename_i title hsec
      rw [qs_none_of_section hsec]
      split <;> simp [rawNumbers]
    · rename_i hsec
      split
      · rename_i nb hq
        rw [hq]
        simp [rawNumbers]
      · rename_i hq
        rw [hq]
        split
        · rename_i hc
          simp [rawNumbers, hc]
        · rename_i r hc
          split
          · rename_i hmk
            simp [rawNumbers, hc]
          · rename_i hmk
            split
            · rename_i lc hopt
              split
              · rename_i hstate
                simp [rawNumbers, hc]
              · rename_i hstate
                rw [rawNumbers_other_line st r t hc]
                simp
            · rename_i hopt
              rw [rawNumbers_other_line st r t hc]
              simp

lemma rawNumbers_foldl :
    ∀ (lines : List Str) (st : ParserSt),
      rawNumbers (lines.foldl process_line st) =
        rawNumbers st ++ question_start_lines lines := by
  intro lines
  induction lines with
  | nil => intro st; simp [question_start_lines]
  | cons l ls ih =>
    intro st
    rw [List.foldl_cons, ih (process_line st l), rawNumbers_process]
    rw [List.append_assoc]
    unfold question_start_lines
    rw [List.filterMap_cons]
    cases hq : match_question_start (pyStrip l) <;> simp

lemma parse_document_numbers (lines : List Str) :
    (parse_document lines).map (·.number) = question_start_lines lines := by
  unfold parse_document
  have h := rawNumbers_foldl lines
    { acc := [], current := none, state := none, sectionType := none }
  unfold rawNumbers at h
  simpa using h

/-- C4: for every well-formed input, the parser emits one question per
question-start line, and the output ids are exactly the parsed numbers in
ascending sorted order. (Both properties hold for all inputs; the
well-formedness hypothesis is the claim's.) -/
theorem c4_parser_shape (lines : List Str) (h : well_formed lines = true) :
    (build_questions (parse_document lines)).length
        = (question_start_lines lines).length
    ∧ List.Sorted (· ≤ ·) ((build_questions (parse_document lines)).map (·.id))
    ∧ ((build_questions (parse_document lines)).map (·.id)).Perm
        (question_start_lines lines) := by
  have hperm : (build_questions (parse_document lines)).Perm
      ((parse_document lines).map build_question) :=
    List.perm_insertionSort _ _
  have hids : ((parse_document lines).map build_question).map (·.id)
      = question_start_lines lines := by
    rw [List.map_map]
    have hcomp : ((fun q : Question => q.id) ∘ build_question)
        = fun r : Raw => r.number := rfl
    rw [hcomp, ← parse_document_numbers]
  refine ⟨?_, ?_, ?_⟩
  · calc (build_questions (parse_document lines)).length
        = ((parse_document lines).map build_question).length :=
          List.length_insertionSort _ _
      _ = (((parse_document lines).map build_question).map (·.id)).length :=
          (List.length_map _ _).symm
      _ = (question_start_lines lines).length := by rw [hids]
  · have hs := List.sorted_insertionSort (fun a b : Question => a.id ≤ b.id)
      ((parse_document lines).map build_question)
    rw [List.Sorted, List.pairwise_map]
    exact hs
  · exact hids ▸ hperm.map (·.id)

/-- Concrete document for the C4 witness: questions numbered 3 and 1, each
with a marker line; output ids come back ascending. -/
def c4doc : List Str :=
  [[51, 12289, 65], [27491, 30830, 31572, 26696, 65306, 23545],
   [49, 12289, 66], [27491, 30830, 31572, 26696, 65306, 38169]]

theorem c4_witness :
    well_formed c4doc = true ∧
      ((build_questions (parse_document c4doc)).map (·.id)).Perm
        (question_start_lines c4doc) :=
  ⟨by decide, (c4_parser_shape c4doc (by decide)).2.2⟩

/-! ### C7 / C8: how option-shaped lines are treated per parser state -/

lemma match_option_shape {t : Str} (h : (match_option t).isSome = true) :
    ∃ a c rest, t = a :: c :: rest ∧ optLabelChar a = true ∧ optSep c = true := by
  cases t with
  | nil => simp [match_option] at h
  | cons a t1 =>
    cases t1 with
    | nil => simp [match_option] at h
    | cons c rest =>
      refine ⟨a, c, rest, rfl, ?_⟩
      simp only [match_option] at h
      by_cases hb : (optLabelChar a && optSep c) = true
      · have hb' := hb
        simp only [Bool.and_eq_true] at hb'
        exact hb'
      · rw [if_neg hb] at h
        cases h

lemma optLabel_head_facts {a : Nat} (h : optLabelChar a = true) :
    cjkNumeral a = false ∧ isDigit a = false ∧ a ≠ 27491 := by
  unfold optLabelChar at h
  unfold cjkNumeral isDigit
  simp only [Bool.or_eq_true, Bool.and_eq_true, decide_eq_true_eq] at h
  refine ⟨?_, ?_, by omega⟩
  · simp only [Bool.or_eq_false_iff, decide_eq_false_iff_not]
    omega
  · simp only [Bool.or_eq_false_iff, Bool.and_eq_false_iff,
      decide_eq_false_iff_not, not_le]
    omega

lemma marker_false_of_head {a : Nat} {rest : Str} (h : a ≠ 27491) :
    strStartsWith marker_prefix (a :: rest) = false := by
  unfold strStartsWith marker_prefix
  simp [List.take, h]

/-- C7: while the parser is in the answer state, an option-shaped line is
never recorded into the options map; the stripped line is appended to the
accumulated answer text, and nothing else changes. -/
theorem c7_option_line_in_answer_state (st : ParserSt) (r : Raw) (line : Str)
    (hc : st.current = some r) (hs : st.state = some PState.answer)
    (hm : (match_option (pyStrip line)).isSome = true) :
    process_line st line =
      { st with
        current := some
          { r with answer_lines := r.answer_lines ++ [pyStrip line] } } := by
  obtain ⟨a, c2, rest, ht, hl, hsep⟩ := match_option_shape hm
  obtain ⟨hcjk, hdig, hmark⟩ := optLabel_head_facts hl
  have hopt : match_option (a :: c2 :: rest) = some (a, restCapture rest) := by
    simp [match_option, hl, hsep]
  have hnot : ¬(st.state = some PState.question ∨
      st.state = some PState.options) := by
    rw [hs]
    rintro (h1 | h1) <;> cases h1
  unfold process_line
  rw [ht]
  unfold process_text
  rw [if_neg (by simp), section_none_of_head hcjk, qs_none_of_head hdig, hc,
    marker_false_of_head hmark]
  simp only [Bool.false_eq_true, if_false, hopt, if_neg hnot]
  unfold other_line
  rw [if_pos hs]

/-- Parser state and record used by the C7 witness. -/
def c7r : Raw :=
  { number := 5, q_type := none, text_lines := [[113]], options := [],
    answer_lines := [[65]] }

def c7st : ParserSt :=
  { acc := [], current := some c7r, state := some PState.answer,
    sectionType := none }

theorem c7_witness :
    process_line c7st [66, 12289, 32, 107] =
      { c7st with
        current := some
          { c7r with answer_lines :=
              c7r.answer_lines ++ [pyStrip [66, 12289, 32, 107]] } } :=
  c7_option_line_in_answer_state c7st c7r [66, 12289, 32, 107] rfl rfl
    (by decide)

lemma dlookup_dinsert_self {κ α : Type} [DecidableEq κ] (k : κ) (v : α) :
    ∀ d : List (κ × α), dlookup k (dinsert k v d) = some v := by
  intro d
  induction d with
  | nil => simp [dinsert, dlookup]
  | cons p ps ih =>
    rw [dinsert]
    split_ifs with h
    · simp [dlookup]
    · rw [dlookup, if_neg h]
      exact ih

/-- C8 (amended): while collecting the prompt or the options, a line
matching `OPTION_RE` — a single letter A–D (half- or full-width) followed
by separator punctuation and option text — is recorded into the current
record's options map under the label normalized to half-width, mapped to
the stripped option text, and the parser moves to the options state. -/
theorem c8_option_line_recorded (st : ParserSt) (r : Raw) (line : Str)
    (lab : Nat) (content : Str) (hc : st.current = some r)
    (hs : st.state = some PState.question ∨ st.state = some PState.options)
    (hm : match_option (pyStrip line) = some (lab, content)) :
    process_line st line =
      { st with
        current := some
          { r with
            options :=
              dinsert (cn_option_map lab) (pyStrip content) r.options },
        state := some PState.options }
    ∧ dlookup (cn_option_map lab)
        (dinsert (cn_option_map lab) (pyStrip content) r.options)
        = some (pyStrip content) := by
  refine ⟨?_, dlookup_dinsert_self _ _ _⟩
  obtain ⟨a, c2, rest, ht, hl, hsep⟩ :=
    match_option_shape (by rw [hm]; rfl)
  obtain ⟨hcjk, hdig, hmark⟩ := optLabel_head_facts hl
  unfold process_line
  rw [ht]
  unfold process_text
  rw [ht] at hm
  rw [if_neg (by simp), section_none_of_head hcjk, qs_none_of_head hdig, hc,
    marker_false_of_head hmark]
  simp only [Bool.false_eq_true, if_false, hm, if_pos hs]

/-- Parser state and record used by the C8 witness. -/
def c8r : Raw :=
  { number := 2, q_type := none, text_lines := [[113]], options := [],
    answer_lines := [] }

def c8st : ParserSt :=
  { acc := [], current := some c8r, state := some PState.question,
    sectionType := none }

theorem c8_witness :
    (process_line c8st [67, 46, 32, 121] =
      { c8st with
        current := some
          { c8r with
            options :=
              dinsert (cn_option_map 67) (pyStrip [121]) c8r.options },
        state := some PState.options })
    ∧ dlookup (cn_option_map 67)
        (dinsert (cn_option_map 67) (pyStrip [121]) c8r.options)
        = some (pyStrip [121]) :=
  c8_option_line_recorded c8st c8r [67, 46, 32, 121] 67 [121] rfl
    (Or.inl rfl) (by decide)

/-- The option pattern as worded by the original claim: *any* single Latin
letter (half- or full-width, either case) followed by separator
punctuation. -/
def claim_option_line (s : Str) : Bool :=
  match s with
  | a :: c :: _ =>
    ((65 ≤ a && a ≤ 90) || (97 ≤ a && a ≤ 122) ||
      (0xFF21 ≤ a && a ≤ 0xFF3A) || (0xFF41 ≤ a && a ≤ 0xFF5A)) && optSep c
  | _ => false

/-- Document for the C8 counterexample: `1、题` / `E、xx` / `正确答案：A`. -/
def c8doc : List Str :=
  [[49, 12289, 39064], [69, 12289, 120, 120],
   [27491, 30830, 31572, 26696, 65306, 65]]

/-- C8 counterexample: the line `E、xx` is a single Latin letter followed by
separator punctuation and option text — the claim's option pattern — and is
read while collecting the prompt, yet the resulting question's options map
contains no entry at all: `OPTION_RE` only admits the letters A–D. -/
theorem c8_counterexample :
    claim_option_line (pyStrip [69, 12289, 120, 120]) = true ∧
      (build_questions (parse_document c8doc)).map (·.options) = [[]] := by
  decide

/-! ### C2: fallback type inference for records without a section type -/

/-- C2 (amended): for a record with no section-inherited type, the inferred
type follows this priority: non-empty options map → single-choice; otherwise
normalized answer in the fixed set
`{对, 錯, 错, 正确, 错误, √, ×, T, F, TRUE, FALSE}` (no `1`/`0`, no
`YES`/`NO`) → true/false; otherwise normalized answer of at most 20
characters with no embedded line break → fill-in-blank; otherwise
short-answer. -/
theorem c2_type_inference (raw : Raw) (h : raw.q_type = none) :
    (raw.options ≠ [] → guess_qtype_for_raw raw = QTYPE_SINGLE)
    ∧ (raw.options = [] →
        (guess_qtype_for_raw raw = QTYPE_TF ↔ ans_norm raw ∈ tf_set))
    ∧ (raw.options = [] → ans_norm raw ∉ tf_set →
        (guess_qtype_for_raw raw = QTYPE_BLANK ↔
          ((ans_norm raw).length ≤ 20 ∧ (ans_join raw).contains 10 = false)))
    ∧ (raw.options = [] → ans_norm raw ∉ tf_set →
        ¬((ans_norm raw).length ≤ 20 ∧ (ans_join raw).contains 10 = false) →
        guess_qtype_for_raw raw = QTYPE_SHORT) := by
  simp only [guess_qtype_for_raw, h]
  refine ⟨?_, ?_, ?_, ?_⟩
  · intro hopt
    rw [if_pos hopt]
  · intro hopt
    rw [if_neg (by simp [hopt])]
    by_cases hm : ans_norm raw ∈ tf_set
    · simp [hm]
    · rw [if_neg (by simpa using hm)]
      constructor
      · intro heq
        exfalso
        revert heq
        split_ifs <;> intro heq <;> exact absurd heq (by decide)
      · intro hmem
        exact absurd hmem hm
  · intro hopt hm
    rw [if_neg (by simp [hopt]), if_neg (by simpa using hm)]
    by_cases hb : ((ans_norm raw).length ≤ 20 &&
        !((ans_join raw).contains 10)) = true
    · rw [if_pos hb]
      simp only [Bool.and_eq_true, decide_eq_true_eq, Bool.not_eq_true'] at hb
      exact ⟨fun _ => hb, fun _ => rfl⟩
    · rw [if_neg hb]
      simp only [Bool.and_eq_true, decide_eq_true_eq, Bool.not_eq_true'] at hb
      constructor
      · intro heq
        exact absurd heq (by decide)
      · intro hcond
        exact absurd hcond hb
  · intro hopt hm hcond
    have hb : ¬(((ans_norm raw).length ≤ 20 &&
        !((ans_join raw).contains 10)) = true) := by
      simp only [Bool.and_eq_true, decide_eq_true_eq, Bool.not_eq_true']
      exact hcond
    rw [if_neg (by simp [hopt]), if_neg (by simpa using hm), if_neg hb]

/-- Record with answer `对` used by the C2 witness. -/
def c2r : Raw :=
  { number := 4, q_type := none, text_lines := [[113]], options := [],
    answer_lines := [[23545]] }

theorem c2_witness : guess_qtype_for_raw c2r = QTYPE_TF :=
  (((c2_type_inference c2r rfl).2.1) rfl).mpr (by decide)

/-- Record with no options and reference answer exactly `"1"`. -/
def c2x : Raw :=
  { number := 1, q_type := none, text_lines := [[113]], options := [],
    answer_lines := [[49]] }

/-- C2 counterexample: the claim includes `1`/`0` in the parser's true/false
token set, so a record with no options whose answer is exactly `"1"` would
be inferred true/false; the code's `tf_set` has no `1`/`0` and the record is
inferred fill-in-blank. -/
theorem c2_counterexample :
    ans_norm c2x = [49] ∧ guess_qtype_for_raw c2x = QTYPE_BLANK ∧
      QTYPE_BLANK ≠ QTYPE_TF := by decide

/-! ### C6: the statistics merge (`storage.py` / `quiz_engine._update_stats`)

The statistics JSON object is modelled with the four schema fields of
`storage._default_stats` plus the `per_type_answered` key that
`_update_stats` creates via `setdefault` (`none` models an absent key). -/

structure Stats where
  total_answered : Nat := 0
  total_correct : Nat := 0
  per_type_total : List (String × Nat) := []
  per_type_correct : List (String × Nat) := []
  per_type_answered : Option (List (String × Nat)) := none
deriving DecidableEq

/-- Embeds `storage._default_stats()`. -/
def default_stats : Stats := {}

/-- The accumulation loops of `_update_stats`:
`pa[q_type] = pa.get(q_type, 0) + n` over a round dictionary. -/
def dadd (round d : List (String × Nat)) : List (String × Nat) :=
  round.foldl (fun acc tn => dinsert tn.1 ((dlookup tn.1 acc).getD 0 + tn.2) acc) d

def sum_values (d : List (String × Nat)) : Nat := (d.map (·.2)).sum

/-- Embeds `quiz_engine._update_stats` applied to loaded statistics: no-op on an
empty round; otherwise add the round sums to the totals, accumulate
per-type answered counts under the key `per_type_answered` (creating it via
`setdefault`), and per-type correct counts under `per_type_correct`. -/
def update_stats (stats : Stats)
    (per_type_total per_type_correct : List (String × Nat)) : Stats :=
  if per_type_total = [] then stats
  else
    { stats with
      total_answered := stats.total_answered + sum_values per_type_total,
      total_correct := stats.total_correct + sum_values per_type_correct,
      per_type_answered :=
        some (dadd per_type_total (stats.per_type_answered.getD [])),
      per_type_correct := dadd per_type_correct stats.per_type_correct }

/-- C6: merging a completed round of one answered-and-correct single-choice
question into freshly-defaulted statistics leaves `per_type_total` empty and
instead creates the undocumented key `per_type_answered` — the additive
per-type merge never reaches the documented `per_type_total` mapping (which
`storage._default_stats` and `main.handle_view_stats` use), while the
global totals and `per_type_correct` are merged as documented. -/
theorem c6_stats_divergence :
    (update_stats default_stats [(QTYPE_SINGLE, 1)] [(QTYPE_SINGLE, 1)]).per_type_total = []
    ∧ (update_stats default_stats [(QTYPE_SINGLE, 1)] [(QTYPE_SINGLE, 1)]).per_type_answered
        = some [(QTYPE_SINGLE, 1)]
    ∧ (update_stats default_stats [(QTYPE_SINGLE, 1)] [(QTYPE_SINGLE, 1)]).total_answered = 1
    ∧ (update_stats default_stats [(QTYPE_SINGLE, 1)] [(QTYPE_SINGLE, 1)]).total_correct = 1
    ∧ (update_stats default_stats [(QTYPE_SINGLE, 1)] [(QTYPE_SINGLE, 1)]).per_type_correct
        = [(QTYPE_SINGLE, 1)] := by decide

/-! ### `qt_app.py`: immediate wrong saving, submission, session finish

UI-display state (labels, answer card, `index_status`, `user_answers`) is
not modelled; the session state kept here is what the persisted data and
the claims depend on. `WrongEntry` models a `Question` object carrying the
dynamic `wrong_count` attribute. -/

structure WrongEntry where
  q : Question
  wrong_count : Nat
deriving DecidableEq

structure QtSession where
  per_type_total : List (String × Nat)
  per_type_correct : List (String × Nat)
  wrong_in_session : List (Nat × WrongEntry)
  wrong_book : List (Nat × WrongEntry)
  stats : Stats
  waiting_answer : Bool
deriving DecidableEq

/-- Embeds `self.per_type_total[t] = self.per_type_total.get(t, 0) + 1`. -/
def bump (t : String) (d : List (String × Nat)) : List (String × Nat) :=
  dinsert t ((dlookup t d).getD 0 + 1) d

/-- The grading tail of `_handle_submit_answer` (after a non-rejected raw
answer): grade, tally, on a wrong answer record the question in the
in-session wrong dict and persist it immediately with `wrong_count`
incremented from the stored entry, then merge this submission into the
global statistics and leave the awaiting-answer state. -/
def grade_step (q : Question) (user_raw : Str) (st : QtSession) : QtSession :=
  let is_correct := (check_answer q user_raw).1
  let st1 := { st with per_type_total := bump q.qType st.per_type_total }
  let st2 :=
    if is_correct then
      { st1 with per_type_correct := bump q.qType st1.per_type_correct }
    else
      { st1 with
        wrong_in_session :=
          dinsert q.id
            ⟨q, ((dlookup q.id st1.wrong_book).map (·.wrong_count)).getD 0 + 1⟩
            st1.wrong_in_session,
        wrong_book :=
          dinsert q.id
            ⟨q, ((dlookup q.id st1.wrong_book).map (·.wrong_count)).getD 0 + 1⟩
            st1.wrong_book }
  { st2 with
    stats := update_stats st2.stats [(q.qType, 1)]
      [(q.qType, if is_correct then 1 else 0)],
    waiting_answer := false }

/-- Embeds `_handle_submit_answer`: for choice/true-false questions the stripped
selected option is the raw answer and a blank one is rejected before any
state changes; for the other types the stripped text area content is
accepted even when blank. -/
def handle_submit_answer (q : Question) (option_value text_value : Str)
    (st : QtSession) : QtSession :=
  if q.qType = QTYPE_SINGLE ∨ q.qType = QTYPE_TF then
    if pyStrip option_value = [] then st
    else grade_step q (pyStrip option_value) st
  else grade_step q (pyStrip text_value) st

/-- The wrong-book update of `_finish_session` for modes normal and wrong:
re-merge every in-session wrong question (taking the larger
`wrong_count`); nothing is ever removed. -/
def finish_session_wrong (book : List (Nat × WrongEntry))
    (wrong_in_session : List (Nat × WrongEntry)) : List (Nat × WrongEntry) :=
  wrong_in_session.foldl
    (fun d p =>
      dinsert p.1
        ⟨p.2.q, max (((dlookup p.1 d).map (·.wrong_count)).getD 0)
          p.2.wrong_count⟩ d)
    book

/-! ### The CLI session step (`quiz_engine._do_quiz_session` loop body) -/

structure CliRound where
  correct_count : Nat
  per_type_total : List (String × Nat)
  per_type_correct : List (String × Nat)
  wrong_questions : List Question
deriving DecidableEq

/-- One question of `_do_quiz_session`: strip the typed input, auto-grade it
(`self_judge` replaces the automatic verdict for short-answer questions),
tally by type, and collect wrong questions. No input is ever rejected. -/
def cli_answer_step (q : Question) (input_raw : Str) (self_judge : Bool)
    (st : CliRound) : CliRound :=
  let user_raw := pyStrip input_raw
  let is_correct :=
    if q.qType = QTYPE_SHORT then self_judge else (check_answer q user_raw).1
  let st1 := { st with per_type_total := bump q.qType st.per_type_total }
  if is_correct then
    { st1 with
      per_type_correct := bump q.qType st1.per_type_correct,
      correct_count := st1.correct_count + 1 }
  else { st1 with wrong_questions := st1.wrong_questions ++ [q] }

/-! ### C5: the wrong-only round wrong-set update (`run_wrong_quiz`) -/

/-- Builds the Python dict comprehension over question ids. -/
def dict_of_questions (l : List Question) : List (Nat × Question) :=
  l.foldl (fun d q => dinsert q.id q d) []

/-- The loop body of `run_wrong_quiz`'s wrong-book rewrite: re-add the
question if its id was answered incorrectly this round, pop it otherwise. -/
def wrong_step (wrong_ids : List Nat) (d : List (Nat × Question))
    (q : Question) : List (Nat × Question) :=
  if wrong_ids.contains q.id then dinsert q.id q d else derase q.id d

/-- The wrong-book rewrite at the end of `run_wrong_quiz`: rebuild the
id-keyed dict from the stored list, run the loop over the round's
questions, and keep the dict's values. -/
def run_wrong_quiz_update (wrong_all questions wrong_list : List Question) :
    List Question :=
  (questions.foldl (wrong_step (wrong_list.map (·.id)))
    (dict_of_questions wrong_all)).map (·.2)

lemma keys_dinsert {κ α : Type} [DecidableEq κ] (k : κ) (v : α) :
    ∀ (d : List (κ × α)) (j : κ),
      (j ∈ (dinsert k v d).map (·.1) ↔ j = k ∨ j ∈ d.map (·.1)) := by
  intro d
  induction d with
  | nil => intro j; simp [dinsert]
  | cons p ps ih =>
    obtain ⟨k', v'⟩ := p
    intro j
    rw [dinsert]
    split_ifs with h
    · subst h
      simp [List.mem_cons]
    · simp only [List.map_cons, List.mem_cons, ih]
      tauto

lemma keys_derase {κ α : Type} [DecidableEq κ] (k j : κ) (d : List (κ × α)) :
    j ∈ (derase k d).map (·.1) ↔ j ∈ d.map (·.1) ∧ j ≠ k := by
  simp only [derase, List.mem_map, List.mem_filter, decide_eq_true_eq]
  constructor
  · rintro ⟨p, ⟨hp, hne⟩, rfl⟩
    exact ⟨⟨p, hp, rfl⟩, hne⟩
  · rintro ⟨⟨p, hp, rfl⟩, hne⟩
    exact ⟨p, ⟨hp, hne⟩, rfl⟩

lemma ofList_keys :
    ∀ (l : List Question) (d : List (Nat × Question)) (j : Nat),
      (j ∈ ((l.foldl (fun d q => dinsert q.id q d) d).map (·.1)) ↔
        j ∈ l.map (·.id) ∨ j ∈ d.map (·.1)) := by
  intro l
  induction l with
  | nil => intro d j; simp
  | cons q rest ih =>
    intro d j
    rw [List.foldl_cons, ih (dinsert q.id q d) j, keys_dinsert]
    simp only [List.map_cons, List.mem_cons]
    tauto

lemma loop_keys_not_mem (wrong_ids : List Nat) :
    ∀ (qs : List Question) (d : List (Nat × Question)) (j : Nat),
      j ∉ qs.map (·.id) →
      (j ∈ ((qs.foldl (wrong_step wrong_ids) d).map (·.1)) ↔
        j ∈ d.map (·.1)) := by
  intro qs
  induction qs with
  | nil => intro d j _; exact Iff.rfl
  | cons q rest ih =>
    intro d j hj
    simp only [List.map_cons, List.mem_cons] at hj
    push_neg at hj
    obtain ⟨hj1, hj2⟩ := hj
    rw [List.foldl_cons, ih _ j hj2]
    unfold wrong_step
    split_ifs with h
    · rw [keys_dinsert]
      simp [hj1]
    · rw [keys_derase]
      simp [hj1]

lemma loop_keys_mem (wrong_ids : List Nat) :
    ∀ (qs : List Question) (d : List (Nat × Question)) (j : Nat),
      j ∈ qs.map (·.id) →
      (j ∈ ((qs.foldl (wrong_step wrong_ids) d).map (·.1)) ↔
        wrong_ids.contains j = true) := by
  intro qs
  induction qs with
  | nil => intro d j hj; simp at hj
  | cons q rest ih =>
    intro d j hj
    rw [List.foldl_cons]
    by_cases hr : j ∈ rest.map (·.id)
    · exact ih _ j hr
    · have hq : j = q.id := by
        simp only [List.map_cons, List.mem_cons] at hj
        tauto
      rw [loop_keys_not_mem wrong_ids rest _ j hr]
      unfold wrong_step
      subst hq
      split_ifs with h
      · rw [keys_dinsert]
        simpa using h
      · rw [keys_derase]
        simpa using h

/-- Every entry of the wrong-book dicts stores the question under its own
id. -/
def idKeyed (d : List (Nat × Question)) : Prop := ∀ p ∈ d, p.2.id = p.1

lemma idKeyed_dinsert (q : Question) :
    ∀ d : List (Nat × Question), idKeyed d → idKeyed (dinsert q.id q d) := by
  intro d
  induction d with
  | nil =>
    intro _ p hp
    simp only [dinsert, List.mem_singleton] at hp
    subst hp
    rfl
  | cons p0 ps ih =>
    obtain ⟨k', v'⟩ := p0
    intro h p hp
    rw [dinsert] at hp
    split_ifs at hp with heq
    · rcases List.mem_cons.mp hp with rfl | hmem
      · rfl
      · exact h p (List.mem_cons_of_mem _ hmem)
    · rcases List.mem_cons.mp hp with rfl | hmem
      · exact h (k', v') (List.mem_cons_self _ _)
      · exact ih (fun p' hp' => h p' (List.mem_cons_of_mem _ hp')) p hmem

lemma idKeyed_derase (k : Nat) {d : List (Nat × Question)} (h : idKeyed d) :
    idKeyed (derase k d) :=
  fun p hp => h p (List.mem_filter.mp hp).1

lemma idKeyed_ofList :
    ∀ (l : List Question) (d : List (Nat × Question)), idKeyed d →
      idKeyed (l.foldl (fun d q => dinsert q.id q d) d) := by
  intro l
  induction l with
  | nil => intro d h; exact h
  | cons q rest ih =>
    intro d h
    rw [List.foldl_cons]
    exact ih _ (idKeyed_dinsert q d h)

lemma idKeyed_loop (wrong_ids : List Nat) :
    ∀ (qs : List Question) (d : List (Nat × Question)), idKeyed d →
      idKeyed (qs.foldl (wrong_step wrong_ids) d) := by
  intro qs
  induction qs with
  | nil => intro d h; exact h
  | cons q rest ih =>
    intro d h
    rw [List.foldl_cons]
    apply ih
    unfold wrong_step
    split_ifs with hcont
    · exact idKeyed_dinsert q d h
    · exact idKeyed_derase q.id h

lemma result_ids {d : List (Nat × Question)} (h : idKeyed d) :
    (d.map (·.2)).map (·.id) = d.map (·.1) := by
  rw [List.map_map]
  apply List.map_congr_left
  intro p hp
  exact h p hp

/-- C5 (amended): after a CLI wrong-only round (`run_wrong_quiz`), a
question id that was in the round is in the persisted wrong-set iff it was
answered incorrectly this round (correct answers graduate out, wrong
answers stay or are re-added), and an id not in the round keeps exactly its
previous membership. -/
theorem c5_wrong_quiz_update (wrong_all questions wrong_list : List Question)
    (j : Nat) :
    (j ∈ questions.map (·.id) →
      ((j ∈ (run_wrong_quiz_update wrong_all questions wrong_list).map (·.id))
        ↔ j ∈ wrong_list.map (·.id)))
    ∧ (j ∉ questions.map (·.id) →
      ((j ∈ (run_wrong_quiz_update wrong_all questions wrong_list).map (·.id))
        ↔ j ∈ wrong_all.map (·.id))) := by
  have hkeyed : idKeyed (questions.foldl
      (wrong_step (wrong_list.map (·.id))) (dict_of_questions wrong_all)) :=
    idKeyed_loop _ questions _
      (idKeyed_ofList wrong_all [] (fun p hp => absurd hp (List.not_mem_nil p)))
  have hres : (run_wrong_quiz_update wrong_all questions wrong_list).map (·.id)
      = (questions.foldl (wrong_step (wrong_list.map (·.id)))
          (dict_of_questions wrong_all)).map (·.1) := result_ids hkeyed
  constructor
  · intro hj
    rw [hres, loop_keys_mem _ questions _ j hj]
    simp
  · intro hj
    rw [hres, loop_keys_not_mem _ questions _ j hj]
    unfold dict_of_questions
    rw [ofList_keys]
    simp

def c5qA : Question :=
  { id := 1, qType := QTYPE_SINGLE, question := [], options := [(65, [120])],
    answer := [65] }

def c5qB : Question :=
  { id := 2, qType := QTYPE_TF, question := [], options := [],
    answer := [23545] }

theorem c5_witness :
    1 ∉ (run_wrong_quiz_update [c5qA, c5qB] [c5qA] []).map (·.id) :=
  fun hmem => absurd
    (((c5_wrong_quiz_update [c5qA, c5qB] [c5qA] [] 1).1 (by decide)).mp hmem)
    (by decide)

/-- Single-choice question (id 7, reference `A`) for the C5 counterexample. -/
def c5q : Question :=
  { id := 7, qType := QTYPE_SINGLE, question := [],
    options := [(65, [120]), (66, [121])], answer := [65] }

/-- A Qt session whose persisted wrong-book already holds question 7 with
`wrong_count` 2, about to take a wrong-only round consisting of exactly
that question. -/
def c5st0 : QtSession :=
  { per_type_total := [], per_type_correct := [], wrong_in_session := [],
    wrong_book := [(7, ⟨c5q, 2⟩)], stats := default_stats,
    waiting_answer := true }

/-- C5 counterexample: in the Qt GUI, question 7 is in the round, is
answered correctly (`A`), and was previously in the persisted wrong-set —
yet after the session finishes it is still present: `_finish_session` only
re-merges in-session wrong answers and never removes correctly answered
questions. -/
theorem c5_counterexample :
    (handle_submit_answer c5q [65] [] c5st0).wrong_in_session = []
    ∧ (check_answer c5q [65]).1 = true
    ∧ (finish_session_wrong (handle_submit_answer c5q [65] [] c5st0).wrong_book
        (handle_submit_answer c5q [65] [] c5st0).wrong_in_session).map (·.1)
        = [7] := by decide

/-! ### C9: blank-answer policy on submission -/

lemma grade_step_per_type_total (q : Question) (u : Str) (st : QtSession) :
    (grade_step q u st).per_type_total = bump q.qType st.per_type_total := by
  simp only [grade_step]
  split_ifs <;> rfl

lemma grade_step_waiting (q : Question) (u : Str) (st : QtSession) :
    (grade_step q u st).waiting_answer = false := by
  simp only [grade_step]

/-- C9 (amended): in the Qt GUI submit handler, a blank raw answer to a
single-choice or true/false question is rejected with no state change,
while for fill-in-blank and short-answer questions a blank raw answer is
accepted and graded as the empty string, recording a tally and leaving the
awaiting-answer state. -/
theorem c9_blank_submission_policy (q : Question) (ov tv : Str)
    (st : QtSession) :
    ((q.qType = QTYPE_SINGLE ∨ q.qType = QTYPE_TF) → pyStrip ov = [] →
      handle_submit_answer q ov tv st = st)
    ∧ (¬(q.qType = QTYPE_SINGLE ∨ q.qType = QTYPE_TF) → pyStrip tv = [] →
      (handle_submit_answer q ov tv st = grade_step q [] st
        ∧ dlookup q.qType (grade_step q [] st).per_type_total
            = some ((dlookup q.qType st.per_type_total).getD 0 + 1)
        ∧ (grade_step q [] st).waiting_answer = false)) := by
  constructor
  · intro h hb
    unfold handle_submit_answer
    rw [if_pos h, if_pos hb]
  · intro h hb
    refine ⟨?_, ?_, grade_step_waiting q [] st⟩
    · unfold handle_submit_answer
      rw [if_neg h, hb]
    · rw [grade_step_per_type_total]
      exact dlookup_dinsert_self _ _ _

def c9q : Question :=
  { id := 11, qType := QTYPE_SINGLE, question := [],
    options := [(65, [120])], answer := [65] }

def c9st : QtSession :=
  { per_type_total := [], per_type_correct := [], wrong_in_session := [],
    wrong_book := [], stats := default_stats, waiting_answer := true }

theorem c9_witness : handle_submit_answer c9q [32] [] c9st = c9st :=
  (c9_blank_submission_policy c9q [32] [] c9st).1 (Or.inl rfl) (by decide)

def c9cli0 : CliRound :=
  { correct_count := 0, per_type_total := [], per_type_correct := [],
    wrong_questions := [] }

/-- C9 counterexample: the CLI session loop does not reject a blank answer
to a single-choice question — it grades it, records the tally and appends
the question to the round's wrong list, a state change that contradicts the
claim's "rejected with no state change". -/
theorem c9_counterexample :
    cli_answer_step c9q [] false c9cli0 =
      { correct_count := 0, per_type_total := [(QTYPE_SINGLE, 1)],
        per_type_correct := [], wrong_questions := [c9q] }
    ∧ cli_answer_step c9q [] false c9cli0 ≠ c9cli0 := by decide

end QuestStream
